import Mathlib

/-!
Shallow embedding of the `lz4` crate's decompressor and a verification of its
specification.

The embedding follows the authoritative decoder pair of the repository:
`src/decompress/raw.rs` (raw block decoder), `src/decompress/framed.rs`
(frame decoder), `src/decompress/iter.rs` (the `ByteIter` input cursor) and
`src/buf.rs` (the `Buf` output-sink trait with its `ArrayBuf` and `HeapBuf`
implementations).

Modelling conventions:
* Machine integers (`u8`, `u16`, `u32`, `u64`, `usize`) are modelled as `Nat`;
  wrap-around is made explicit with `% 2^w` exactly where the Rust code relies
  on wrapping arithmetic (only inside the XXH32 hash).  Input byte slices are
  `List Nat` whose entries are byte values.
* Fallible Rust code returning `Result<_, Error>` is modelled with `RResult`.
  Rust panics (the `assert!` in the frame decoder, the `expect` in `copy`,
  overflow-checked `usize` subtraction and out-of-bounds slice indexing) are
  modelled by the distinct outcome `RResult.panic` carrying the panic message.
* The two decoder loops are written with an explicit fuel parameter; the entry
  points supply `input.length + 1` fuel, which is sufficient because every
  iteration of either loop consumes at least one input byte.
-/

namespace LZ4

/-- Modelled from the spec: the error enum of the decompress module root is not
among the provided sources (only `framed.rs`, `raw.rs`, `iter.rs` which use it
are); its variants are the stable names listed in spec section 6. -/
inductive Error where
  | MemoryLimitExceeded
  | UnexpectedEof
  | ZeroMatchOffset
  | InvalidMagic
  | VersionNotSupported
  | InvalidInput
  | ReservedBitHigh
  | InvalidMaxBlockSize
  | HeaderChecksumInvalid
  | BlockChecksumInvalid
  | ContentChecksumInvalid
  | ContentSizeInvalid
deriving Repr, DecidableEq

/-- Outcome of running a piece of Rust code: normal return, `Err(_)` return, or
a panic (which in Rust aborts the computation and is not an `Err`). -/
inductive RResult (α : Type) where
  | ok (val : α)
  | err (e : Error)
  | panic (msg : String)
deriving Repr, DecidableEq

/-- The frame magic number (`src/decompress.rs`, also used by `framed.rs`). -/
def MAGIC : Nat := 0x184D2204

/-- Modelled from the spec: the `VERSION` constant of the decompress module
root is not among the provided sources; spec section 4.3 requires the two
version bits of the flag byte to equal binary `01`. -/
def VERSION : Nat := 1

/-! ## The input cursor (`src/decompress/iter.rs`) -/

/-- The `ByteIter` cursor: a byte slice together with the current index. -/
structure ByteIter where
  bytes : List Nat
  idx : Nat
deriving Repr, DecidableEq

/-- `ByteIter::take`: borrow the next `count` bytes and advance, or fail with
`UnexpectedEof` when fewer than `count` bytes remain. -/
def ByteIter.take (it : ByteIter) (count : Nat) : Except Error (List Nat × ByteIter) :=
  if it.idx + count ≤ it.bytes.length then
    .ok ((it.bytes.drop it.idx).take count, ⟨it.bytes, it.idx + count⟩)
  else .error .UnexpectedEof

/-- `ByteIter::read_byte`: read one byte and advance. -/
def ByteIter.read_byte (it : ByteIter) : Except Error (Nat × ByteIter) :=
  match it.bytes[it.idx]? with
  | some b => .ok (b, ⟨it.bytes, it.idx + 1⟩)
  | none => .error .UnexpectedEof

/-- `ByteIter::read::<N>`: read `n` bytes one at a time into an array. -/
def ByteIter.read : ByteIter → Nat → Except Error (List Nat × ByteIter)
  | it, 0 => .ok ([], it)
  | it, n + 1 =>
    match it.read_byte with
    | .error e => .error e
    | .ok (b, it') =>
      match it'.read n with
      | .error e => .error e
      | .ok (bs, it'') => .ok (b :: bs, it'')

/-- The loop inside `ByteIter::read_int`: repeatedly read a byte, add it to
the accumulator, and stop at the first byte that is not `255`; end of input
during the loop is `UnexpectedEof`.  The fuel argument makes the recursion
structural; `read_int` supplies the number of remaining input bytes, which the
loop never exhausts (each step consumes one byte), so the `0` arm coincides
with the end-of-input failure. -/
def ByteIter.readIntLoop : Nat → ByteIter → Nat → Except Error (Nat × ByteIter)
  | 0, _, _ => .error .UnexpectedEof
  | n + 1, it, x =>
    match it.bytes[it.idx]? with
    | none => .error .UnexpectedEof
    | some byte =>
      if byte = 255 then ByteIter.readIntLoop n ⟨it.bytes, it.idx + 1⟩ (x + byte)
      else .ok (x + byte, ⟨it.bytes, it.idx + 1⟩)

/-- `ByteIter::read_int`: the LZ4 variable-length length extension.  Returns
`first` unchanged unless it is `15`, in which case the extension bytes are
summed (starting from `15`, including the terminating byte `< 255`). -/
def ByteIter.read_int (it : ByteIter) (first : Nat) : Except Error (Nat × ByteIter) :=
  if first ≠ 15 then .ok (first, it)
  else ByteIter.readIntLoop (it.bytes.length - it.idx) it 15

/-! ## The output sink (`src/buf.rs`) -/

/-- A dictionary-passing rendering of the `Buf<u8>` trait: the operations the
decoders are polymorphic over.  `reserve` does not observably mutate either
implementation, so it is modelled as a pure predicate. -/
structure BufImpl (σ : Type) where
  push : σ → Nat → σ × Option Nat
  reserve : σ → Nat → Bool
  len : σ → Nat
  as_slice : σ → List Nat
  extend : σ → List Nat → σ × Bool

/-- The `(0..diff).for_each(|_| { self.push(item); })` loop inside the default
body of `Buf::resize`; the result of each push is discarded. -/
def Buf.pushN {σ : Type} (B : BufImpl σ) (item : Nat) : Nat → σ → σ
  | 0, s => s
  | n + 1, s => Buf.pushN B item n (B.push s item).1

/-- The provided (default) body of `Buf::resize`: grow to `len` by pushing
copies of `item`; return `false` without modification when `len` does not
exceed the current length or when `reserve` fails. -/
def Buf.resize {σ : Type} (B : BufImpl σ) (s : σ) (len item : Nat) : σ × Bool :=
  if len > B.len s then
    let diff := len - B.len s
    if B.reserve s diff then (Buf.pushN B item diff s, true) else (s, false)
  else (s, false)

/-- The fixed-capacity `ArrayBuf<T, N>`: a backing array of length `N`
(`List Nat` in the model, filled with `T::default()` = `0` by `new`) and the
count `len` of initialized elements. -/
structure ArrayBuf (N : Nat) where
  arr : List Nat
  len : Nat
deriving Repr, DecidableEq

/-- `ArrayBuf::new`: default-filled backing array, length `0`. -/
def ArrayBuf.new (N : Nat) : ArrayBuf N := ⟨List.replicate N 0, 0⟩

/-- `ArrayBuf::push`: write at index `len` if that index exists in the backing
array, else hand the item back. -/
def ArrayBuf.push {N : Nat} (s : ArrayBuf N) (item : Nat) : ArrayBuf N × Option Nat :=
  if s.len < s.arr.length then (⟨s.arr.set s.len item, s.len + 1⟩, none)
  else (s, some item)

/-- `ArrayBuf::reserve`: `self.len + count <= N`, no mutation. -/
def ArrayBuf.reserve {N : Nat} (s : ArrayBuf N) (count : Nat) : Bool :=
  s.len + count ≤ N

/-- `ArrayBuf::as_slice`: the initialized prefix `&self.arr[..self.len]`. -/
def ArrayBuf.as_slice {N : Nat} (s : ArrayBuf N) : List Nat :=
  s.arr.take s.len

/-- `ArrayBuf::extend`: pre-check `reserve`, then bulk-copy `buf` into
`self.arr[self.len..self.len + buf.len()]` and bump `len`. -/
def ArrayBuf.extend {N : Nat} (s : ArrayBuf N) (buf : List Nat) : ArrayBuf N × Bool :=
  if s.len + buf.length ≤ N then
    (⟨s.arr.take s.len ++ buf ++ s.arr.drop (s.len + buf.length), s.len + buf.length⟩, true)
  else (s, false)

/-- The `Buf` dictionary for `ArrayBuf<u8, N>`. -/
def arrayBuf (N : Nat) : BufImpl (ArrayBuf N) where
  push := ArrayBuf.push
  reserve := ArrayBuf.reserve
  len := ArrayBuf.len
  as_slice := ArrayBuf.as_slice
  extend := ArrayBuf.extend

/-- The `Buf` dictionary for `HeapBuf<u8>` (a growable `Vec<u8>`, modelled as
the list of its elements): `push`/`extend` append and always succeed,
`reserve` always returns `true`. -/
def heapBuf : BufImpl (List Nat) where
  push := fun s item => (s ++ [item], none)
  reserve := fun _ _ => true
  len := fun s => s.length
  as_slice := fun s => s
  extend := fun s buf => (s ++ buf, true)

/-! ## XXH32 (seed-parameterised, one-shot over a byte list)

The frame decoder uses `twox_hash::XxHash32`, an external collaborator; its
semantics is the standard XXH32 algorithm.  Feeding a streaming hasher the
header bytes one field at a time (`write_u8`, `write_u8`, `write_u64` with
the little-endian bytes of the content size) equals hashing their
concatenation, so the model hashes the concatenated byte list. -/

def PRIME1 : Nat := 2654435761
def PRIME2 : Nat := 2246822519
def PRIME3 : Nat := 3266489917
def PRIME4 : Nat := 668265263
def PRIME5 : Nat := 374761393

/-- The modulus of 32-bit wrapping arithmetic. -/
def M32 : Nat := 2 ^ 32

/-- 32-bit rotate left of a value `< 2^32`. -/
def rotl32 (x r : Nat) : Nat :=
  ((x <<< r) ||| (x >>> (32 - r))) % M32

/-- One XXH32 accumulator round. -/
def xxh32_round (acc lane : Nat) : Nat :=
  rotl32 ((acc + lane * PRIME2) % M32) 13 * PRIME1 % M32

/-- Little-endian value of a byte list (`uN::from_le_bytes`). -/
def le_of_bytes (l : List Nat) : Nat :=
  l.foldr (fun b acc => b + 256 * acc) 0

/-- Little-endian bytes of a `u64` (`Hasher::write_u64` feeds these). -/
def le64bytes (n : Nat) : List Nat :=
  [n % 256, n / 2 ^ 8 % 256, n / 2 ^ 16 % 256, n / 2 ^ 24 % 256,
   n / 2 ^ 32 % 256, n / 2 ^ 40 % 256, n / 2 ^ 48 % 256, n / 2 ^ 56 % 256]

/-- XXH32 main loop: consume 16-byte stripes into the four accumulators. -/
def xxh32_stripes : Nat → Nat → Nat → Nat → List Nat → (Nat × Nat × Nat × Nat × List Nat)
  | v1, v2, v3, v4,
    b0 :: b1 :: b2 :: b3 :: b4 :: b5 :: b6 :: b7 ::
    b8 :: b9 :: b10 :: b11 :: b12 :: b13 :: b14 :: b15 :: rest =>
      xxh32_stripes
        (xxh32_round v1 (le_of_bytes [b0, b1, b2, b3]))
        (xxh32_round v2 (le_of_bytes [b4, b5, b6, b7]))
        (xxh32_round v3 (le_of_bytes [b8, b9, b10, b11]))
        (xxh32_round v4 (le_of_bytes [b12, b13, b14, b15]))
        rest
  | v1, v2, v3, v4, l => (v1, v2, v3, v4, l)

/-- XXH32 finalization: consume remaining 4-byte words. -/
def xxh32_fours : Nat → List Nat → (Nat × List Nat)
  | h, b0 :: b1 :: b2 :: b3 :: rest =>
      xxh32_fours (rotl32 ((h + le_of_bytes [b0, b1, b2, b3] * PRIME3) % M32) 17 * PRIME4 % M32) rest
  | h, l => (h, l)

/-- XXH32 finalization: consume remaining single bytes. -/
def xxh32_bytes (h : Nat) (l : List Nat) : Nat :=
  l.foldl (fun h b => rotl32 ((h + b * PRIME5) % M32) 11 * PRIME1 % M32) h

/-- XXH32 avalanche. -/
def xxh32_avalanche (h : Nat) : Nat :=
  let h := h ^^^ (h >>> 15)
  let h := h * PRIME2 % M32
  let h := h ^^^ (h >>> 13)
  let h := h * PRIME3 % M32
  h ^^^ (h >>> 16)

/-- XXH32 of a byte list with the given seed.  Validated against the reference
test vectors and against the repository's own `hello` frame fixture (header
checksum byte `0xA7`, content checksum `0x946B5BF9`). -/
def xxh32 (seed : Nat) (input : List Nat) : Nat :=
  let len := input.length
  let hrest : Nat × List Nat :=
    if 16 ≤ len then
      let s := xxh32_stripes ((seed + PRIME1 + PRIME2) % M32) ((seed + PRIME2) % M32)
        (seed % M32) ((seed + M32 - PRIME1) % M32) input
      ((rotl32 s.1 1 + rotl32 s.2.1 7 + rotl32 s.2.2.1 12 + rotl32 s.2.2.2.1 18) % M32, s.2.2.2.2)
    else
      ((seed + PRIME5) % M32, input)
  let h := (hrest.1 + len) % M32
  let fr := xxh32_fours h hrest.2
  xxh32_avalanche (xxh32_bytes fr.1 fr.2)

/-! ## The raw block decoder (`src/decompress/raw.rs`) -/

/-- The `(0..len).for_each` loop inside `copy`: at step `idx` read
`out.as_slice()[start + idx]` (panicking when out of bounds, as Rust slice
indexing does) and push it; `n` counts the remaining iterations.  The result
of `push` is discarded, as in the source. -/
def copyLoop {σ : Type} (B : BufImpl σ) (start : Nat) : Nat → Nat → σ → RResult σ
  | _, 0, s => .ok s
  | idx, n + 1, s =>
    match (B.as_slice s)[start + idx]? with
    | none => .panic "index out of bounds"
    | some x => copyLoop B start (idx + 1) n (B.push s x).1

/-- The `copy` helper of `raw.rs`: execute one match copy of `len` bytes at
distance `offset` from the end of `out`.  `offset == 1` run-fills the last
emitted byte via `resize` (panicking when the output is still empty, from the
`expect` on `last()`); `offset > 1` computes `start = out_len - offset`
(overflow-checked `usize` subtraction panics when `offset > out_len`) and
copies byte by byte. -/
def copy {σ : Type} (B : BufImpl σ) (offset len : Nat) (s : σ) : RResult σ :=
  let out_len := B.len s
  if offset = 0 then .err .ZeroMatchOffset
  else if offset = 1 then
    match (B.as_slice s).getLast? with
    | none => .panic "output should ever be filled here"
    | some last =>
      match Buf.resize B s (out_len + len) last with
      | (s', true) => .ok s'
      | (_, false) => .err .MemoryLimitExceeded
  else
    if B.reserve s len then
      if offset ≤ out_len then copyLoop B (out_len - offset) 0 len s
      else .panic "attempt to subtract with overflow"
    else .err .MemoryLimitExceeded

/-- The sequence loop of `decompress_block`, with fuel.  Each iteration: read
the token (end of input here ends the block successfully), parse the literal
length, reserve, take and append the literals (the `extend` result is
discarded by the source), read the offset low byte (end of input here is the
legal final-sequence termination), read the offset high byte, parse the match
length, and run `copy`. -/
def decompressBlockLoop {σ : Type} (B : BufImpl σ) : Nat → ByteIter → σ → RResult σ
  | 0, _, _ => .err .UnexpectedEof
  | fuel + 1, it, s =>
    match it.read_byte with
    | .error _ => .ok s
    | .ok (token, it1) =>
      match it1.read_int (token >>> 4) with
      | .error e => .err e
      | .ok (len, it2) =>
        if B.reserve s len then
          match it2.take len with
          | .error e => .err e
          | .ok (slice, it3) =>
            let s1 := (B.extend s slice).1
            match it3.read_byte with
            | .error _ => .ok s1
            | .ok (low, it4) =>
              match it4.read_byte with
              | .error e => .err e
              | .ok (high, it5) =>
                let offset := low + 256 * high
                match it5.read_int (token &&& 0xF) with
                | .error e => .err e
                | .ok (mlen, it6) =>
                  match copy B offset (4 + mlen) s1 with
                  | .err e => .err e
                  | .panic m => .panic m
                  | .ok s2 => decompressBlockLoop B fuel it6 s2
        else .err .MemoryLimitExceeded

/-- `decompress_block` of `raw.rs`: decode one raw LZ4 block from `data` into
the output sink.  The fuel `data.length + 1` is sufficient: every loop
iteration consumes at least the token byte. -/
def decompress_block {σ : Type} (B : BufImpl σ) (data : List Nat) (s : σ) : RResult σ :=
  decompressBlockLoop B (data.length + 1) ⟨data, 0⟩ s

/-! ## The frame decoder (`src/decompress/framed.rs`) -/

/-- Flag bit `IndependentBlocks` of the frame descriptor. -/
def IndependentBlocks : Nat := 0x20

/-- Flag bit `BlockChecksums` of the frame descriptor. -/
def BlockChecksums : Nat := 0x10

/-- Flag bit `ContentSize` of the frame descriptor. -/
def ContentSize : Nat := 0x08

/-- Flag bit `ContentChecksum` of the frame descriptor. -/
def ContentChecksum : Nat := 0x04

/-- Flag bit `DictionaryId` of the frame descriptor. -/
def DictionaryId : Nat := 0x01

/-- The union of all defined flag bits; `Flags::from_bits_truncate` keeps
exactly these. -/
def FlagsMask : Nat := 0x3D

/-- `bitflags` `contains` for a single flag constant. -/
def hasFlag (flags bit : Nat) : Bool :=
  flags &&& bit == bit

/-- `parse_flags` of `framed.rs`: check the version bits and the reserved
bit 1, then truncate to the defined flag bits. -/
def parse_flags (raw : Nat) : Except Error Nat :=
  if raw >>> 6 ≠ VERSION then .error .VersionNotSupported
  else if raw &&& 0b10 ≠ 0 then .error .ReservedBitHigh
  else .ok (raw &&& FlagsMask)

/-- The per-block checksum step at the end of each loop iteration of the frame
decoder (`if let Some(actual) = hash.take() { ... }`): when the
`BlockChecksums` flag is set a little-endian `u32` is read and compared with
the XXH32 of the block payload as transmitted.  The end-of-stream marker arm
of the source performs the same reads and comparison with the hash of an
empty input, so it is expressed with this function at payload `[]`. -/
def blockChecksum (flags : Nat) (payload : List Nat) (it : ByteIter) : Except Error ByteIter :=
  if hasFlag flags BlockChecksums then
    match it.read 4 with
    | .error e => .error e
    | .ok (ebs, it') =>
      if xxh32 0 payload ≠ le_of_bytes ebs then .error .BlockChecksumInvalid
      else .ok it'
  else .ok it

/-- The block loop of the frame decoder, with fuel.  Each iteration reads the
little-endian `u32` block header; `0` ends the stream (after the end-marker
checksum handling of the source), bit 31 marks stored (uncompressed) data,
a size above `maxbs` is treated as uncompressed data, and otherwise the
payload goes through `decompress_block`. -/
def blockLoop {σ : Type} (B : BufImpl σ) (flags maxbs : Nat) :
    Nat → ByteIter → σ → RResult (ByteIter × σ)
  | 0, _, _ => .err .UnexpectedEof
  | fuel + 1, it, s =>
    match it.read 4 with
    | .error e => .err e
    | .ok (hb, it1) =>
      let size := le_of_bytes hb
      if size = 0 then
        match blockChecksum flags [] it1 with
        | .error e => .err e
        | .ok it2 => .ok (it2, s)
      else if size &&& 0x80000000 ≠ 0 then
        match it1.take (size &&& 0x7FFFFFFF) with
        | .error e => .err e
        | .ok (source, it2) =>
          match B.extend s source with
          | (s1, true) =>
            match blockChecksum flags source it2 with
            | .error e => .err e
            | .ok it3 => blockLoop B flags maxbs fuel it3 s1
          | (_, false) => .err .MemoryLimitExceeded
      else if maxbs < size then
        match it1.take size with
        | .error e => .err e
        | .ok (source, it2) =>
          match B.extend s source with
          | (s1, true) =>
            match blockChecksum flags source it2 with
            | .error e => .err e
            | .ok it3 => blockLoop B flags maxbs fuel it3 s1
          | (_, false) => .err .MemoryLimitExceeded
      else
        match it1.take size with
        | .error e => .err e
        | .ok (block, it2) =>
          match decompress_block B block s with
          | .err e => .err e
          | .panic m => .panic m
          | .ok s1 =>
            match blockChecksum flags block it2 with
            | .error e => .err e
            | .ok it3 => blockLoop B flags maxbs fuel it3 s1

/-- `decompress` of `framed.rs`: parse the frame header (magic, flag byte,
block descriptor, optional content size, header checksum — hashing the header
bytes along the way), run the block loop, then check the optional content
checksum.  The declared content size is bound but never compared with the
output; the `DictionaryId` flag triggers the source's `assert!`, i.e. a
panic. -/
def decompress {σ : Type} (B : BufImpl σ) (input : List Nat) (s : σ) : RResult σ :=
  let it0 : ByteIter := ⟨input, 0⟩
  match it0.read 4 with
  | .error e => .err e
  | .ok (mb, it1) =>
    if le_of_bytes mb ≠ MAGIC then .err .InvalidMagic
    else
      match it1.read_byte with
      | .error e => .err e
      | .ok (flagsByte, it2) =>
        match parse_flags flagsByte with
        | .error e => .err e
        | .ok flags =>
          match it2.read_byte with
          | .error e => .err e
          | .ok (bd, it3) =>
            if bd &&& 0b10001111 ≠ 0 then .err .ReservedBitHigh
            else
              let idx := (bd >>> 4) &&& 0b111
              if 4 ≤ idx ∧ idx ≤ 7 then
                let maxbs : Nat := 2 ^ (idx * 2 + 8)
                match (if hasFlag flags ContentSize then
                        match it3.read 8 with
                        | .error e => .error e
                        | .ok (csb, it') => .ok (some (le_of_bytes csb), it')
                       else .ok (none, it3) :
                        Except Error (Option Nat × ByteIter)) with
                | .error e => .err e
                | .ok (contentSize, it4) =>
                  let headerBytes := [flagsByte, bd] ++
                    (match contentSize with
                     | some n => le64bytes n
                     | none => [])
                  if hasFlag flags DictionaryId then
                    .panic "Dictionary IDs are currently not supported"
                  else
                    match it4.read_byte with
                    | .error e => .err e
                    | .ok (hc, it5) =>
                      if hc ≠ (xxh32 0 headerBytes >>> 8) % 256 then
                        .err .HeaderChecksumInvalid
                      else
                        match blockLoop B flags maxbs (input.length + 1) it5 s with
                        | .err e => .err e
                        | .panic m => .panic m
                        | .ok (it6, s1) =>
                          if hasFlag flags ContentChecksum then
                            match it6.read 4 with
                            | .error e => .err e
                            | .ok (ab, _) =>
                              if le_of_bytes ab ≠ xxh32 0 (B.as_slice s1) then
                                .err .ContentChecksumInvalid
                              else .ok s1
                          else .ok s1
              else .err .InvalidMaxBlockSize

/-! ## Sanity theorems against the repository's own fixtures -/

/-- The `hello` frame fixture of the test suite decodes to `hello\n`;
this exercises the magic, header-checksum, uncompressed-block and
content-checksum paths of the embedding at once. -/
theorem decompress_hello_frame :
    decompress heapBuf
      [0x04, 0x22, 0x4D, 0x18, 0x64, 0x40, 0xA7, 0x06, 0x00, 0x00, 0x80,
       0x68, 0x65, 0x6C, 0x6C, 0x6F, 0x0A, 0x00, 0x00, 0x00, 0x00, 0xF9, 0x5B, 0x6B, 0x94] [] =
    .ok [0x68, 0x65, 0x6C, 0x6C, 0x6F, 0x0A] := by decide

/-- The `block_hello` test of `raw.rs`: raw block `11 61 01 00` decodes to six
copies of `a` in a capacity-6 `ArrayBuf`. -/
theorem decompress_block_hello_array :
    decompress_block (arrayBuf 6) [0x11, 0x61, 0x01, 0x00] (ArrayBuf.new 6) =
    .ok ⟨[97, 97, 97, 97, 97, 97], 6⟩ := by decide

/-- Scenario S5: a zero match offset is rejected with `ZeroMatchOffset`. -/
theorem decompress_block_zero_offset :
    decompress_block heapBuf [0x10, 0x20, 0x00, 0x00] [] = .err .ZeroMatchOffset := by decide

/-! ## Claim theorems -/

/-- C9: `decompress_block` on the empty input returns success leaving the
output buffer unchanged (so an empty output has length 0), while the frame
`decompress` on the empty input fails with `UnexpectedEof`. -/
theorem empty_input_block_ok_frame_eof :
    (∀ (σ : Type) (B : BufImpl σ) (s : σ), decompress_block B [] s = .ok s) ∧
    (∀ (σ : Type) (B : BufImpl σ) (s : σ), decompress B [] s = .err .UnexpectedEof) := by
  exact ⟨fun σ B s => rfl, fun σ B s => rfl⟩

/-- C1 counterexample: a well-formed frame that declares a content size of
`100` and carries no blocks decodes successfully to an empty output — the
frame decoder never compares the declared content size with the output
length, so no `ContentSizeInvalid` error is produced where the claim
requires one. -/
theorem content_size_mismatch_accepted_cex :
    decompress heapBuf
      ([0x04, 0x22, 0x4D, 0x18, 0x48, 0x40] ++ [100, 0, 0, 0, 0, 0, 0, 0] ++
       [205] ++ [0, 0, 0, 0]) [] = .ok [] ∧
    heapBuf.len ([] : List Nat) ≠ 100 := by
  exact ⟨by decide, by decide⟩

/-- C2 counterexample: a frame with the `BlockChecksums` flag whose input ends
right after the `0` end-of-blocks marker fails with `UnexpectedEof`, because
the decoder reads four further per-block-checksum bytes at the end marker —
contradicting the claim that it proceeds without consuming any. -/
theorem end_marker_consumes_checksum_cex :
    decompress heapBuf
      [0x04, 0x22, 0x4D, 0x18, 0x50, 0x40, 192, 0, 0, 0, 0] [] =
    .err .UnexpectedEof := by decide

/-- C3 counterexample: a frame whose flag byte has the `DictionaryId` bit set
(and which passes the magic, version, reserved-bit and block-size checks)
makes `decompress` panic via `assert!` instead of returning an
`InvalidInput` error. -/
theorem dictionary_id_panics_cex :
    decompress heapBuf [0x04, 0x22, 0x4D, 0x18, 0x41, 0x40] [] =
    .panic "Dictionary IDs are currently not supported" := by decide

/-- Helper: characterization of the `read_int` extension loop on a successful
run: `k` bytes equal to `255` followed by a terminator `b ≠ 255` yield the
accumulator plus `255 * k + b`, and the cursor stops right after the
terminator. -/
theorem readIntLoop_ext (k : Nat) :
    ∀ (fuel : Nat) (it : ByteIter) (x b : Nat),
      (∀ j, j < k → it.bytes[it.idx + j]? = some 255) →
      it.bytes[it.idx + k]? = some b → b ≠ 255 → k < fuel →
      ByteIter.readIntLoop fuel it x = .ok (x + 255 * k + b, ⟨it.bytes, it.idx + k + 1⟩) := by
  induction k with
  | zero =>
    intro fuel it x b _ hb hne hk
    obtain ⟨f, rfl⟩ : ∃ f, fuel = f + 1 := ⟨fuel - 1, by omega⟩
    simp only [Nat.add_zero] at hb
    rw [ByteIter.readIntLoop]
    simp only [hb, if_neg hne]
    norm_num
  | succ k ih =>
    intro fuel it x b hall hb hne hk
    obtain ⟨f, rfl⟩ : ∃ f, fuel = f + 1 := ⟨fuel - 1, by omega⟩
    have h0 : it.bytes[it.idx]? = some 255 := by simpa using hall 0 (Nat.succ_pos k)
    rw [ByteIter.readIntLoop]
    simp only [h0, if_true]
    have hrec := ih f ⟨it.bytes, it.idx + 1⟩ (x + 255) b
      (fun j hj => by
        have hx := hall (j + 1) (by omega)
        have he : it.idx + (j + 1) = it.idx + 1 + j := by omega
        rw [he] at hx
        exact hx)
      (by
        have he : it.idx + (k + 1) = it.idx + 1 + k := by omega
        rw [he] at hb
        exact hb)
      hne (by omega)
    rw [hrec]
    have e1 : x + 255 + 255 * k + b = x + 255 * (k + 1) + b := by ring
    have e2 : it.idx + 1 + k + 1 = it.idx + (k + 1) + 1 := by omega
    rw [e1, e2]

/-- Helper: when every remaining input byte is `255`, the `read_int`
extension loop can only run out of input, failing with `UnexpectedEof`
(whatever the fuel). -/
theorem readIntLoop_all255_eof :
    ∀ (fuel : Nat) (it : ByteIter) (x : Nat),
      (∀ i, it.idx ≤ i → i < it.bytes.length → it.bytes[i]? = some 255) →
      ByteIter.readIntLoop fuel it x = .error .UnexpectedEof := by
  intro fuel
  induction fuel with
  | zero =>
    intro it x _
    rw [ByteIter.readIntLoop]
  | succ n ih =>
    intro it x hall
    rw [ByteIter.readIntLoop]
    cases hg : it.bytes[it.idx]? with
    | none => simp only [hg]
    | some b =>
      have hlt : it.idx < it.bytes.length := by
        by_contra h
        rw [List.getElem?_eq_none (by omega)] at hg
        exact Option.noConfusion hg
      have hb255 : b = 255 := by
        have h2 := hall it.idx le_rfl hlt
        rw [hg] at h2
        exact Option.some.inj h2
      subst hb255
      simp only [hg, if_true]
      exact ih ⟨it.bytes, it.idx + 1⟩ (x + 255) (fun i h1 h2 => hall i (Nat.le_of_succ_le h1) h2)

/-- C5: `read_int first` returns `first` (reading nothing) whenever
`first ≠ 15`; when `first = 15` it adds every extension byte read — the
terminating byte `≠ 255` included — into the sum and stops right after that
terminator; reaching end of input inside the extension fails with
`UnexpectedEof`, and in particular `decompress_block` on the two-byte input
`F0 FF` returns `UnexpectedEof`. -/
theorem read_int_extension_semantics :
    (∀ (it : ByteIter) (first : Nat), first ≠ 15 → it.read_int first = .ok (first, it)) ∧
    (∀ (k : Nat) (it : ByteIter) (b : Nat),
      (∀ j, j < k → it.bytes[it.idx + j]? = some 255) →
      it.bytes[it.idx + k]? = some b → b ≠ 255 →
      it.read_int 15 = .ok (15 + 255 * k + b, ⟨it.bytes, it.idx + k + 1⟩)) ∧
    (∀ it : ByteIter,
      (∀ i, it.idx ≤ i → i < it.bytes.length → it.bytes[i]? = some 255) →
      it.read_int 15 = .error .UnexpectedEof) ∧
    decompress_block heapBuf [0xF0, 0xFF] [] = .err .UnexpectedEof := by
  refine ⟨?_, ?_, ?_, by decide⟩
  · intro it first h
    rw [ByteIter.read_int, if_pos h]
  · intro k it b hall hb hne
    rw [ByteIter.read_int, if_neg (by simp)]
    have hklt : it.idx + k < it.bytes.length := by
      by_contra h
      rw [List.getElem?_eq_none (by omega)] at hb
      exact Option.noConfusion hb
    exact readIntLoop_ext k (it.bytes.length - it.idx) it 15 b hall hb hne (by omega)
  · intro it hall
    rw [ByteIter.read_int, if_neg (by simp)]
    exact readIntLoop_all255_eof (it.bytes.length - it.idx) it 15 hall

/-- Witness for C5: concrete instances of all three hypothesis-bearing
parts, at inputs `[255, 7]` (one extension byte then terminator `7`) and
`[255, 255]` (all remaining bytes `255`). -/
theorem read_int_extension_semantics_witness :
    ByteIter.read_int ⟨[255, 7], 0⟩ 3 = .ok (3, ⟨[255, 7], 0⟩) ∧
    ByteIter.read_int ⟨[255, 7], 0⟩ 15 = .ok (15 + 255 * 1 + 7, ⟨[255, 7], 0 + 1 + 1⟩) ∧
    ByteIter.read_int ⟨[255, 255], 0⟩ 15 = .error .UnexpectedEof := by
  refine ⟨read_int_extension_semantics.1 ⟨[255, 7], 0⟩ 3 (by decide), ?_, ?_⟩
  · exact read_int_extension_semantics.2.1 1 ⟨[255, 7], 0⟩ 7
      (fun j hj => by
        have hj0 : j = 0 := by omega
        subst hj0
        rfl)
      (by rfl) (by decide)
  · exact read_int_extension_semantics.2.2.1 ⟨[255, 255], 0⟩
      (fun i h1 h2 => by
        have h2n : i < 2 := h2
        match i with
        | 0 => rfl
        | 1 => rfl
        | n + 2 => omega)

/-- C6: when the input is exhausted exactly at the attempt to read the offset
low byte after a literal run, the block decode ends successfully with the
literals appended (a literal-only final sequence is legal, not
`UnexpectedEof`). -/
theorem literal_only_final_sequence_ok :
    ∀ (σ : Type) (B : BufImpl σ) (fuel : Nat) (it : ByteIter) (s : σ)
      (token : Nat) (it1 : ByteIter) (len : Nat) (it2 : ByteIter)
      (slice : List Nat) (it3 : ByteIter),
      it.read_byte = .ok (token, it1) →
      it1.read_int (token >>> 4) = .ok (len, it2) →
      B.reserve s len = true →
      it2.take len = .ok (slice, it3) →
      it3.bytes.length ≤ it3.idx →
      decompressBlockLoop B (fuel + 1) it s = .ok (B.extend s slice).1 := by
  intro σ B fuel it s token it1 len it2 slice it3 h1 h2 h3 h4 h5
  rw [decompressBlockLoop, h1]
  simp only [h2, h3, h4, if_true]
  have hb : it3.read_byte = .error .UnexpectedEof := by
    rw [ByteIter.read_byte, List.getElem?_eq_none h5]
  rw [hb]

/-- Witness for C6: the two-byte block `11 61` (token for one literal, the
literal `a`, then end of input) decodes to that single literal. -/
theorem literal_only_final_sequence_ok_witness :
    decompressBlockLoop heapBuf 3 ⟨[0x11, 0x61], 0⟩ [] = .ok (heapBuf.extend [] [0x61]).1 :=
  literal_only_final_sequence_ok (List Nat) heapBuf 2 ⟨[0x11, 0x61], 0⟩ [] 0x11
    ⟨[0x11, 0x61], 1⟩ 1 ⟨[0x11, 0x61], 1⟩ [0x61] ⟨[0x11, 0x61], 2⟩
    (by rfl) (by rfl) (by rfl) (by rfl) (by decide)

/-- C7: dispatch of a block whose header has bit 31 clear: when its size
exceeds `maxbs` the payload is appended verbatim through `extend` (the raw
block decoder is not invoked), and when its size is within `maxbs` the
payload is handed to `decompress_block`. -/
theorem compressed_block_dispatch :
    ∀ (σ : Type) (B : BufImpl σ) (flags maxbs fuel : Nat) (it : ByteIter) (s : σ)
      (hb : List Nat) (it1 : ByteIter) (payload : List Nat) (it2 : ByteIter),
      it.read 4 = .ok (hb, it1) →
      le_of_bytes hb ≠ 0 →
      le_of_bytes hb &&& 0x80000000 = 0 →
      it1.take (le_of_bytes hb) = .ok (payload, it2) →
      blockLoop B flags maxbs (fuel + 1) it s =
        if maxbs < le_of_bytes hb then
          (match B.extend s payload with
           | (s1, true) =>
             (match blockChecksum flags payload it2 with
              | .error e => .err e
              | .ok it3 => blockLoop B flags maxbs fuel it3 s1)
           | (_, false) => .err .MemoryLimitExceeded)
        else
          (match decompress_block B payload s with
           | .err e => .err e
           | .panic m => .panic m
           | .ok s1 =>
             (match blockChecksum flags payload it2 with
              | .error e => .err e
              | .ok it3 => blockLoop B flags maxbs fuel it3 s1)) := by
  intro σ B flags maxbs fuel it s hb it1 payload it2 h1 h2 h3 h4
  rw [blockLoop, h1]
  simp only [if_neg h2, h3]
  rw [if_neg (by decide : ¬(0 : Nat) ≠ 0)]
  by_cases hsz : maxbs < le_of_bytes hb
  · rw [if_pos hsz, if_pos hsz]
    simp only [h4]
  · rw [if_neg hsz, if_neg hsz]
    simp only [h4]

/-- Witness for C7: a four-byte compressed block of size within `maxbs`
is dispatched to `decompress_block` (the `else` branch of the dispatch
equation, evaluated at a concrete block). -/
theorem compressed_block_dispatch_witness :
    blockLoop heapBuf 0 65536 5 ⟨[4, 0, 0, 0, 0x11, 0x61, 0x01, 0x00], 0⟩ [] =
      if (65536 : Nat) < le_of_bytes [4, 0, 0, 0] then
        (match heapBuf.extend [] [0x11, 0x61, 0x01, 0x00] with
         | (s1, true) =>
           (match blockChecksum 0 [0x11, 0x61, 0x01, 0x00] ⟨[4, 0, 0, 0, 0x11, 0x61, 0x01, 0x00], 8⟩ with
            | .error e => .err e
            | .ok it3 => blockLoop heapBuf 0 65536 4 it3 s1)
         | (_, false) => .err .MemoryLimitExceeded)
      else
        (match decompress_block heapBuf [0x11, 0x61, 0x01, 0x00] [] with
         | .err e => .err e
         | .panic m => .panic m
         | .ok s1 =>
           (match blockChecksum 0 [0x11, 0x61, 0x01, 0x00] ⟨[4, 0, 0, 0, 0x11, 0x61, 0x01, 0x00], 8⟩ with
            | .error e => .err e
            | .ok it3 => blockLoop heapBuf 0 65536 4 it3 s1)) :=
  compressed_block_dispatch (List Nat) heapBuf 0 65536 4 ⟨[4, 0, 0, 0, 0x11, 0x61, 0x01, 0x00], 0⟩ []
    [4, 0, 0, 0] ⟨[4, 0, 0, 0, 0x11, 0x61, 0x01, 0x00], 4⟩ [0x11, 0x61, 0x01, 0x00]
    ⟨[4, 0, 0, 0, 0x11, 0x61, 0x01, 0x00], 8⟩
    (by rfl) (by decide) (by decide) (by rfl)

/-- Helper: reading `n` bytes succeeds whenever at least `n` bytes remain,
leaving the cursor advanced by `n`. -/
theorem read_ok_of_le : ∀ (n : Nat) (it : ByteIter), it.idx + n ≤ it.bytes.length →
    ∃ bs, it.read n = .ok (bs, ⟨it.bytes, it.idx + n⟩) := by
  intro n
  induction n with
  | zero =>
    intro it h
    exact ⟨[], rfl⟩
  | succ n ih =>
    intro it h
    have hlt : it.idx < it.bytes.length := by omega
    have hb : it.read_byte = .ok (it.bytes[it.idx], ⟨it.bytes, it.idx + 1⟩) := by
      rw [ByteIter.read_byte, List.getElem?_eq_getElem hlt]
    obtain ⟨bs, hr⟩ := ih ⟨it.bytes, it.idx + 1⟩ (show it.idx + 1 + n ≤ it.bytes.length by omega)
    have hr' : (⟨it.bytes, it.idx + 1⟩ : ByteIter).read n = .ok (bs, ⟨it.bytes, it.idx + 1 + n⟩) :=
      hr
    refine ⟨it.bytes[it.idx] :: bs, ?_⟩
    rw [ByteIter.read]
    simp only [hb, hr']
    have he : it.idx + 1 + n = it.idx + (n + 1) := by omega
    rw [he]

/-- C3 (amended): whenever the parsed flag byte has the `DictionaryId` bit set
and the earlier magic, version, reserved-bit and block-size checks pass, the
frame decoder panics through its `assert!` rather than decoding the frame or
returning an error — whatever bytes follow, including when the `ContentSize`
flag is also set (then the 8-byte content-size field is read first, so it
must be present; a shorter input fails `UnexpectedEof` before the assert). -/
theorem dictionary_id_always_panics :
    ∀ (σ : Type) (B : BufImpl σ) (s : σ) (flg bd : Nat) (rest : List Nat),
      flg >>> 6 = 1 → flg &&& 0b10 = 0 → flg &&& 0b1 = 1 →
      bd &&& 0b10001111 = 0 → 4 ≤ (bd >>> 4) &&& 0b111 → (bd >>> 4) &&& 0b111 ≤ 7 →
      (flg &&& 0b1000 ≠ 0 → 8 ≤ rest.length) →
      decompress B ([0x04, 0x22, 0x4D, 0x18, flg, bd] ++ rest) s =
        .panic "Dictionary IDs are currently not supported" := by
  intro σ B s flg bd rest h1 h2 h3 h5 h6 h7 h8len
  have hpf : parse_flags flg = .ok (flg &&& FlagsMask) := by
    rw [parse_flags, h1]
    rw [if_neg (by decide : ¬(1 : Nat) ≠ VERSION)]
    rw [if_neg (by rw [h2]; decide)]
  have hdict : hasFlag (flg &&& FlagsMask) DictionaryId = true := by
    rw [hasFlag, Nat.land_assoc]
    rw [show FlagsMask &&& DictionaryId = 1 from rfl, h3]
    decide
  have hbd : ¬(bd &&& 0b10001111 ≠ 0) := by rw [h5]; decide
  have hr4 : (⟨[0x04, 0x22, 0x4D, 0x18, flg, bd] ++ rest, 0⟩ : ByteIter).read 4 =
      .ok ([0x04, 0x22, 0x4D, 0x18], ⟨[0x04, 0x22, 0x4D, 0x18, flg, bd] ++ rest, 4⟩) := rfl
  have hrb5 : (⟨[0x04, 0x22, 0x4D, 0x18, flg, bd] ++ rest, 4⟩ : ByteIter).read_byte =
      .ok (flg, ⟨[0x04, 0x22, 0x4D, 0x18, flg, bd] ++ rest, 5⟩) := rfl
  have hrb6 : (⟨[0x04, 0x22, 0x4D, 0x18, flg, bd] ++ rest, 5⟩ : ByteIter).read_byte =
      .ok (bd, ⟨[0x04, 0x22, 0x4D, 0x18, flg, bd] ++ rest, 6⟩) := by
    simp [ByteIter.read_byte]
  rw [decompress]
  simp only [hr4]
  rw [if_neg (by decide : ¬le_of_bytes [0x04, 0x22, 0x4D, 0x18] ≠ MAGIC)]
  simp only [hrb5, hpf, hrb6, if_neg hbd, if_pos (And.intro h6 h7)]
  by_cases hf : flg &&& 0b1000 = 0
  · have hcs : hasFlag (flg &&& FlagsMask) ContentSize = false := by
      rw [hasFlag, Nat.land_assoc]
      rw [show FlagsMask &&& ContentSize = 8 from rfl, hf]
      decide
    simp only [hcs, Bool.false_eq_true, if_false, hdict, if_true]
  · have h8 : flg &&& 0b1000 = 8 := by
      have hpow := Nat.and_two_pow flg 3
      rw [show (2 : Nat) ^ 3 = 0b1000 from rfl] at hpow
      cases hbit : flg.testBit 3 with
      | false =>
        rw [hbit] at hpow
        simp at hpow
        exact absurd hpow hf
      | true =>
        rw [hbit] at hpow
        simpa using hpow
    have hcs : hasFlag (flg &&& FlagsMask) ContentSize = true := by
      rw [hasFlag, Nat.land_assoc]
      rw [show FlagsMask &&& ContentSize = 8 from rfl, h8]
      decide
    have hrl : 8 ≤ rest.length := h8len hf
    obtain ⟨csb, hr8⟩ := read_ok_of_le 8 ⟨[0x04, 0x22, 0x4D, 0x18, flg, bd] ++ rest, 6⟩
      (show 6 + 8 ≤ ([0x04, 0x22, 0x4D, 0x18, flg, bd] ++ rest : List Nat).length by
        simp
        omega)
    simp only [hcs, if_true, hr8, hdict]

/-- Witness for C3: the flag byte `0x49` (version `01`, `ContentSize` and
`DictionaryId` set) with block descriptor `0x40` and the 8-byte content-size
field present. -/
theorem dictionary_id_always_panics_witness :
    decompress heapBuf
      ([0x04, 0x22, 0x4D, 0x18, 0x49, 0x40] ++ [100, 0, 0, 0, 0, 0, 0, 0]) [] =
      .panic "Dictionary IDs are currently not supported" :=
  dictionary_id_always_panics (List Nat) heapBuf [] 0x49 0x40 [100, 0, 0, 0, 0, 0, 0, 0]
    (by decide) (by decide) (by decide) (by decide) (by decide) (by decide) (by decide)

/-- C2 (amended): when the 4-byte block header read in the block loop equals
`0` and the `BlockChecksums` flag is set, the decoder does not stop at once:
it reads four further little-endian bytes and compares them with the XXH32
(seed 0) of the empty byte sequence (`0x02CC5D05 = 46947589`), failing with
`UnexpectedEof` when they are missing and with `BlockChecksumInvalid` when
they encode any other value; only then is the block stream complete. -/
theorem end_marker_checksum_read :
    ∀ (σ : Type) (B : BufImpl σ) (flags maxbs fuel : Nat) (it : ByteIter) (s : σ)
      (hb : List Nat) (it1 : ByteIter),
      hasFlag flags BlockChecksums = true →
      it.read 4 = .ok (hb, it1) →
      le_of_bytes hb = 0 →
      blockLoop B flags maxbs (fuel + 1) it s =
        (match it1.read 4 with
         | .error e => .err e
         | .ok (ebs, it2) =>
           if 46947589 ≠ le_of_bytes ebs then .err .BlockChecksumInvalid
           else .ok (it2, s)) := by
  intro σ B flags maxbs fuel it s hb it1 h1 h2 h3
  rw [blockLoop, h2]
  simp only [h3, if_pos rfl, blockChecksum, h1, if_true]
  rw [show (xxh32 0 [] : Nat) = 46947589 from by decide]
  cases hr : it1.read 4 with
  | error e => rfl
  | ok p =>
    obtain ⟨ebs, it2⟩ := p
    by_cases hc : (46947589 : Nat) ≠ le_of_bytes ebs
    · simp only [if_pos hc]
    · simp only [if_neg hc]

/-- Witness for C2: a concrete end-marker followed by the four little-endian
bytes of the empty-input hash, accepted by the block loop. -/
theorem end_marker_checksum_read_witness :
    blockLoop heapBuf 0x10 65536 2 ⟨[0, 0, 0, 0, 0x05, 0x5D, 0xCC, 0x02], 0⟩ [] =
      (match (⟨[0, 0, 0, 0, 0x05, 0x5D, 0xCC, 0x02], 4⟩ : ByteIter).read 4 with
       | .error e => .err e
       | .ok (ebs, it2) =>
         if 46947589 ≠ le_of_bytes ebs then .err .BlockChecksumInvalid
         else .ok (it2, ([] : List Nat))) :=
  end_marker_checksum_read (List Nat) heapBuf 0x10 65536 1
    ⟨[0, 0, 0, 0, 0x05, 0x5D, 0xCC, 0x02], 0⟩ [] [0, 0, 0, 0]
    ⟨[0, 0, 0, 0, 0x05, 0x5D, 0xCC, 0x02], 4⟩ (by decide) (by rfl) (by decide)

/-- C10: the match-copy helper panics instead of returning an error when the
back-reference is impossible: offset `1` with an empty output (the failing
`expect` on `last()`), and any offset `> 1` exceeding the number of bytes
written so far (the overflow-checked `out_len - offset` subtraction);
`decompress_block` reaches both panics on concrete block inputs. -/
theorem copy_panics_on_invalid_backreference :
    (∀ (σ : Type) (B : BufImpl σ) (s : σ) (len : Nat),
      B.as_slice s = [] →
      copy B 1 len s = .panic "output should ever be filled here") ∧
    (∀ (σ : Type) (B : BufImpl σ) (s : σ) (offset len : Nat),
      2 ≤ offset → B.len s < offset → B.reserve s len = true →
      copy B offset len s = .panic "attempt to subtract with overflow") ∧
    decompress_block heapBuf [0x00, 0x01, 0x00] [] =
      .panic "output should ever be filled here" ∧
    decompress_block heapBuf [0x10, 0x61, 0x05, 0x00] [] =
      .panic "attempt to subtract with overflow" := by
  refine ⟨?_, ?_, by decide, by decide⟩
  · intro σ B s len h
    simp [copy, h]
  · intro σ B s offset len h2 hlen hres
    simp only [copy]
    rw [if_neg (by omega : ¬offset = 0), if_neg (by omega : ¬offset = 1), hres]
    rw [if_pos rfl, if_neg (by omega : ¬offset ≤ B.len s)]

/-- Witness for C10: `copy` at offset `1` on an empty heap buffer and at
offset `5` with only one byte written. -/
theorem copy_panics_on_invalid_backreference_witness :
    copy heapBuf 1 4 [] = .panic "output should ever be filled here" ∧
    copy heapBuf 5 4 [97] = .panic "attempt to subtract with overflow" :=
  ⟨copy_panics_on_invalid_backreference.1 (List Nat) heapBuf [] 4 rfl,
   copy_panics_on_invalid_backreference.2.1 (List Nat) heapBuf [97] 5 4
     (by decide) (by decide) rfl⟩

/-- Helper: the push loop of the default `resize` body keeps the `ArrayBuf`
backing-array length and the length-within-capacity invariant. -/
theorem pushN_preserves (N item : Nat) :
    ∀ (n : Nat) (s : ArrayBuf N), s.arr.length = N → s.len ≤ N →
      (Buf.pushN (arrayBuf N) item n s).arr.length = N ∧
      (Buf.pushN (arrayBuf N) item n s).len ≤ N := by
  intro n
  induction n with
  | zero => intro s h1 h2; exact ⟨h1, h2⟩
  | succ n ih =>
    intro s h1 h2
    rw [Buf.pushN]
    by_cases h : s.len < s.arr.length
    · exact ih _ (by simp [arrayBuf, ArrayBuf.push, h]; exact h1) (by simp [arrayBuf, ArrayBuf.push, h]; omega)
    · exact ih _ (by simp [arrayBuf, ArrayBuf.push, h]; exact h1) (by simp [arrayBuf, ArrayBuf.push, h]; omega)

/-- C8: the `ArrayBuf` operations uphold the buffer contract: a fresh buffer
is well-formed, the length never exceeds the capacity `N`, `reserve` answers
exactly whether `len + count` fits (mutating nothing), `as_slice` is exactly
the initialized prefix `[0, len)` of the backing array, and any failing
operation (`push` handing the item back, `extend` or `resize` returning
`false`) leaves the buffer unchanged. -/
theorem arraybuf_invariants :
    ∀ (N : Nat) (s : ArrayBuf N) (item count tgt : Nat) (buf : List Nat),
      s.arr.length = N → s.len ≤ N →
      ((ArrayBuf.new N).arr.length = N ∧ (ArrayBuf.new N).len = 0) ∧
      ((s.push item).1.arr.length = N ∧ (s.push item).1.len ≤ N ∧
        ((s.push item).2.isSome → (s.push item).1 = s)) ∧
      (s.reserve count = true ↔ s.len + count ≤ N) ∧
      ((s.as_slice).length = s.len ∧ ∀ i, i < s.len → s.as_slice[i]? = s.arr[i]?) ∧
      ((s.extend buf).1.arr.length = N ∧ (s.extend buf).1.len ≤ N ∧
        ((s.extend buf).2 = false → (s.extend buf).1 = s)) ∧
      ((Buf.resize (arrayBuf N) s tgt item).1.arr.length = N ∧
        (Buf.resize (arrayBuf N) s tgt item).1.len ≤ N ∧
        ((Buf.resize (arrayBuf N) s tgt item).2 = false →
          (Buf.resize (arrayBuf N) s tgt item).1 = s)) := by
  intro N s item count tgt buf harr hlen
  refine ⟨⟨by simp [ArrayBuf.new], rfl⟩, ?_, ?_, ?_, ?_, ?_⟩
  · by_cases h : s.len < s.arr.length
    · simp [ArrayBuf.push, h]
      omega
    · simp [ArrayBuf.push, h]
      exact ⟨harr, hlen⟩
  · simp [ArrayBuf.reserve]
  · constructor
    · simp [ArrayBuf.as_slice, List.length_take]
      omega
    · intro i hi
      simp [ArrayBuf.as_slice, List.getElem?_take, hi]
  · by_cases h : s.len + buf.length ≤ N
    · simp [ArrayBuf.extend, h]
      omega
    · simp [ArrayBuf.extend, h]
      exact ⟨harr, hlen⟩
  · simp only [Buf.resize]
    by_cases h : tgt > (arrayBuf N).len s
    · rw [if_pos h]
      by_cases hres : (arrayBuf N).reserve s (tgt - (arrayBuf N).len s) = true
      · rw [if_pos hres]
        have hp := pushN_preserves N item (tgt - (arrayBuf N).len s) s harr hlen
        exact ⟨hp.1, hp.2, by intro hc; exact absurd hc (by simp)⟩
      · rw [if_neg hres]
        exact ⟨harr, hlen, fun _ => rfl⟩
    · rw [if_neg h]
      exact ⟨harr, hlen, fun _ => rfl⟩

/-- Witness for C8: the push-preservation clause evaluated on a concrete
capacity-2 buffer. -/
theorem arraybuf_invariants_witness :
    (ArrayBuf.push (⟨[0, 0], 0⟩ : ArrayBuf 2) 7).1.len ≤ 2 ∧
    (((⟨[0, 0], 2⟩ : ArrayBuf 2).extend [5]).2 = false →
      ((⟨[0, 0], 2⟩ : ArrayBuf 2).extend [5]).1 = ⟨[0, 0], 2⟩) :=
  ⟨(arraybuf_invariants 2 ⟨[0, 0], 0⟩ 7 0 0 [] rfl (by decide)).2.1.2.1,
   (arraybuf_invariants 2 ⟨[0, 0], 2⟩ 7 0 0 [5] rfl (by decide)).2.2.2.2.1.2.2⟩

/-- Helper: the offset-1 arm of `copy` on a non-empty output run-fills the
last emitted byte through `resize`. -/
theorem copy_one {σ : Type} (B : BufImpl σ) (s : σ) (len b : Nat)
    (h : (B.as_slice s).getLast? = some b) :
    copy B 1 len s =
      (match Buf.resize B s (B.len s + len) b with
       | (s', true) => .ok s'
       | (_, false) => .err .MemoryLimitExceeded) := by
  simp only [copy, h]
  norm_num

/-- C4: on the block `11 61 01 00` (one literal `a`, then offset `1` and
match length `5`), decoding into any `ArrayBuf` of capacity at least `6`
succeeds and the buffer's slice is exactly the six bytes `aaaaaa`: the
offset-1 overlapping match is realized as a run-fill of the last emitted
byte. -/
theorem overlap_run_fill_block :
    ∀ N : Nat, 6 ≤ N →
      decompress_block (arrayBuf N) [0x11, 0x61, 0x01, 0x00] (ArrayBuf.new N) =
        .ok ⟨[97, 97, 97, 97, 97, 97] ++ List.replicate (N - 6) 0, 6⟩ ∧
      ArrayBuf.as_slice (⟨[97, 97, 97, 97, 97, 97] ++ List.replicate (N - 6) 0, 6⟩ : ArrayBuf N) =
        [97, 97, 97, 97, 97, 97] := by
  intro N h
  obtain ⟨m, rfl⟩ : ∃ m, N = m + 6 := ⟨N - 6, by omega⟩
  rw [Nat.add_sub_cancel]
  refine ⟨?_, rfl⟩
  have hres1 : (arrayBuf (m + 6)).reserve (ArrayBuf.new (m + 6)) 1 = true := by
    simp only [arrayBuf, ArrayBuf.reserve, ArrayBuf.new, decide_eq_true_eq]
    omega
  have hres5 : (arrayBuf (m + 6)).reserve
      (⟨97 :: List.replicate (m + 5) 0, 1⟩ : ArrayBuf (m + 6)) 5 = true := by
    simp only [arrayBuf, ArrayBuf.reserve, decide_eq_true_eq]
    omega
  have hresize : Buf.resize (arrayBuf (m + 6))
      (⟨97 :: List.replicate (m + 5) 0, 1⟩ : ArrayBuf (m + 6)) 6 97 =
      (⟨[97, 97, 97, 97, 97, 97] ++ List.replicate m 0, 6⟩, true) := by
    have p1 : ((arrayBuf (m + 6)).push
        (⟨97 :: List.replicate (m + 5) 0, 1⟩ : ArrayBuf (m + 6)) 97).1 =
        ⟨97 :: 97 :: List.replicate (m + 4) 0, 2⟩ := rfl
    have p2 : ((arrayBuf (m + 6)).push
        (⟨97 :: 97 :: List.replicate (m + 4) 0, 2⟩ : ArrayBuf (m + 6)) 97).1 =
        ⟨97 :: 97 :: 97 :: List.replicate (m + 3) 0, 3⟩ := rfl
    have p3 : ((arrayBuf (m + 6)).push
        (⟨97 :: 97 :: 97 :: List.replicate (m + 3) 0, 3⟩ : ArrayBuf (m + 6)) 97).1 =
        ⟨97 :: 97 :: 97 :: 97 :: List.replicate (m + 2) 0, 4⟩ := rfl
    have p4 : ((arrayBuf (m + 6)).push
        (⟨97 :: 97 :: 97 :: 97 :: List.replicate (m + 2) 0, 4⟩ : ArrayBuf (m + 6)) 97).1 =
        ⟨97 :: 97 :: 97 :: 97 :: 97 :: List.replicate (m + 1) 0, 5⟩ := rfl
    have p5 : ((arrayBuf (m + 6)).push
        (⟨97 :: 97 :: 97 :: 97 :: 97 :: List.replicate (m + 1) 0, 5⟩ : ArrayBuf (m + 6)) 97).1 =
        ⟨97 :: 97 :: 97 :: 97 :: 97 :: 97 :: List.replicate m 0, 6⟩ := by
      rw [show (arrayBuf (m + 6)).push = ArrayBuf.push from rfl, ArrayBuf.push]
      rw [if_pos (show (5 : Nat) <
        (97 :: 97 :: 97 :: 97 :: 97 :: List.replicate (m + 1) 0 : List Nat).length by
          simp)]
      rfl
    have hres5' : (arrayBuf (m + 6)).reserve
        (⟨97 :: List.replicate (m + 5) 0, 1⟩ : ArrayBuf (m + 6))
        (6 - (arrayBuf (m + 6)).len (⟨97 :: List.replicate (m + 5) 0, 1⟩ : ArrayBuf (m + 6))) =
        true := hres5
    simp only [Buf.resize]
    rw [if_pos (show 6 > (arrayBuf (m + 6)).len
      (⟨97 :: List.replicate (m + 5) 0, 1⟩ : ArrayBuf (m + 6)) by simp [arrayBuf])]
    rw [hres5', if_pos rfl]
    show (Buf.pushN (arrayBuf (m + 6)) 97 5 ⟨97 :: List.replicate (m + 5) 0, 1⟩, true) = _
    rw [Buf.pushN, p1, Buf.pushN, p2, Buf.pushN, p3, Buf.pushN, p4, Buf.pushN, p5, Buf.pushN]
    rfl
  have hcopy : copy (arrayBuf (m + 6)) 1 5
      (⟨97 :: List.replicate (m + 5) 0, 1⟩ : ArrayBuf (m + 6)) =
      .ok ⟨[97, 97, 97, 97, 97, 97] ++ List.replicate m 0, 6⟩ := by
    have hresize' : Buf.resize (arrayBuf (m + 6))
        (⟨97 :: List.replicate (m + 5) 0, 1⟩ : ArrayBuf (m + 6))
        ((arrayBuf (m + 6)).len (⟨97 :: List.replicate (m + 5) 0, 1⟩ : ArrayBuf (m + 6)) + 5)
        97 = (⟨[97, 97, 97, 97, 97, 97] ++ List.replicate m 0, 6⟩, true) := hresize
    rw [copy_one (arrayBuf (m + 6))
      (⟨97 :: List.replicate (m + 5) 0, 1⟩ : ArrayBuf (m + 6)) 5 97 rfl, hresize']
  rw [show decompress_block (arrayBuf (m + 6)) [0x11, 0x61, 0x01, 0x00] (ArrayBuf.new (m + 6)) =
    decompressBlockLoop (arrayBuf (m + 6)) 5 ⟨[0x11, 0x61, 0x01, 0x00], 0⟩ (ArrayBuf.new (m + 6))
    from rfl]
  rw [decompressBlockLoop]
  simp only [show (⟨[0x11, 0x61, 0x01, 0x00], 0⟩ : ByteIter).read_byte =
    .ok (0x11, ⟨[0x11, 0x61, 0x01, 0x00], 1⟩) from rfl]
  simp only [show (⟨[0x11, 0x61, 0x01, 0x00], 1⟩ : ByteIter).read_int (0x11 >>> 4) =
    .ok (1, ⟨[0x11, 0x61, 0x01, 0x00], 1⟩) from rfl]
  rw [hres1, if_pos rfl]
  simp only [show (⟨[0x11, 0x61, 0x01, 0x00], 1⟩ : ByteIter).take 1 =
    .ok ([0x61], ⟨[0x11, 0x61, 0x01, 0x00], 2⟩) from rfl]
  simp only [show ((arrayBuf (m + 6)).extend (ArrayBuf.new (m + 6)) [0x61]).1 =
    (⟨97 :: List.replicate (m + 5) 0, 1⟩ : ArrayBuf (m + 6)) from rfl]
  simp only [show (⟨[0x11, 0x61, 0x01, 0x00], 2⟩ : ByteIter).read_byte =
    .ok (1, ⟨[0x11, 0x61, 0x01, 0x00], 3⟩) from rfl]
  simp only [show (⟨[0x11, 0x61, 0x01, 0x00], 3⟩ : ByteIter).read_byte =
    .ok (0, ⟨[0x11, 0x61, 0x01, 0x00], 4⟩) from rfl]
  simp only [show (⟨[0x11, 0x61, 0x01, 0x00], 4⟩ : ByteIter).read_int (0x11 &&& 0xF) =
    .ok (1, ⟨[0x11, 0x61, 0x01, 0x00], 4⟩) from rfl]
  rw [show (1 + 256 * 0 : Nat) = 1 from rfl, show (4 + 1 : Nat) = 5 from rfl]
  simp only [hcopy]
  rw [decompressBlockLoop]
  simp only [show (⟨[0x11, 0x61, 0x01, 0x00], 4⟩ : ByteIter).read_byte =
    .error .UnexpectedEof from rfl]

/-- Witness for C4: the run-fill block decoded into the exact-capacity
`ArrayBuf` of size 6. -/
theorem overlap_run_fill_block_witness :
    decompress_block (arrayBuf 6) [0x11, 0x61, 0x01, 0x00] (ArrayBuf.new 6) =
      .ok ⟨[97, 97, 97, 97, 97, 97] ++ List.replicate (6 - 6) 0, 6⟩ ∧
    ArrayBuf.as_slice (⟨[97, 97, 97, 97, 97, 97] ++ List.replicate (6 - 6) 0, 6⟩ : ArrayBuf 6) =
      [97, 97, 97, 97, 97, 97] :=
  overlap_run_fill_block 6 (by decide)

/-- Helper: the only error `ByteIter.take` produces is `UnexpectedEof`. -/
theorem take_error_eq (it : ByteIter) (count : Nat) (e : Error)
    (h : it.take count = .error e) : e = .UnexpectedEof := by
  rw [ByteIter.take] at h
  by_cases hc : it.idx + count ≤ it.bytes.length
  · rw [if_pos hc] at h
    exact absurd h (by simp)
  · rw [if_neg hc] at h
    cases h
    rfl

/-- Helper: the only error `ByteIter.read_byte` produces is `UnexpectedEof`. -/
theorem read_byte_error_eq (it : ByteIter) (e : Error) (h : it.read_byte = .error e) :
    e = .UnexpectedEof := by
  rw [ByteIter.read_byte] at h
  cases hg : it.bytes[it.idx]? with
  | some b =>
    simp only [hg] at h
    exact absurd h (by simp)
  | none =>
    simp only [hg] at h
    cases h
    rfl

/-- Helper: the only error `ByteIter.read` produces is `UnexpectedEof`. -/
theorem read_error_eq : ∀ (n : Nat) (it : ByteIter) (e : Error),
    it.read n = .error e → e = .UnexpectedEof := by
  intro n
  induction n with
  | zero =>
    intro it e h
    rw [ByteIter.read] at h
    exact absurd h (by simp)
  | succ n ih =>
    intro it e h
    rw [ByteIter.read] at h
    cases h1 : it.read_byte with
    | error e1 =>
      simp only [h1] at h
      cases h
      exact read_byte_error_eq _ _ h1
    | ok p =>
      obtain ⟨b, it'⟩ := p
      simp only [h1] at h
      cases h2 : it'.read n with
      | error e2 =>
        simp only [h2] at h
        cases h
        exact ih _ _ h2
      | ok p2 =>
        obtain ⟨bs, it''⟩ := p2
        simp only [h2] at h
        exact absurd h (by simp)

/-- Helper: the only error the `read_int` extension loop produces is
`UnexpectedEof`. -/
theorem readIntLoop_error_eq : ∀ (fuel : Nat) (it : ByteIter) (x : Nat) (e : Error),
    ByteIter.readIntLoop fuel it x = .error e → e = .UnexpectedEof := by
  intro fuel
  induction fuel with
  | zero =>
    intro it x e h
    rw [ByteIter.readIntLoop] at h
    cases h
    rfl
  | succ n ih =>
    intro it x e h
    rw [ByteIter.readIntLoop] at h
    cases hg : it.bytes[it.idx]? with
    | none =>
      simp only [hg] at h
      cases h
      rfl
    | some b =>
      simp only [hg] at h
      by_cases hb : b = 255
      · rw [if_pos hb] at h
        exact ih _ _ _ h
      · rw [if_neg hb] at h
        exact absurd h (by simp)

/-- Helper: the only error `read_int` produces is `UnexpectedEof`. -/
theorem read_int_error_eq (it : ByteIter) (first : Nat) (e : Error)
    (h : it.read_int first = .error e) : e = .UnexpectedEof := by
  rw [ByteIter.read_int] at h
  by_cases hf : first ≠ 15
  · rw [if_pos hf] at h
    exact absurd h (by simp)
  · rw [if_neg hf] at h
    exact readIntLoop_error_eq _ _ _ _ h

/-- Helper: the byte-by-byte match-copy loop never produces an `Err` (it
either succeeds or panics on an out-of-bounds read). -/
theorem copyLoop_ne_err {σ : Type} (B : BufImpl σ) (start : Nat) :
    ∀ (n idx : Nat) (s : σ) (e : Error), copyLoop B start idx n s ≠ .err e := by
  intro n
  induction n with
  | zero =>
    intro idx s e
    rw [copyLoop]
    simp
  | succ n ih =>
    intro idx s e
    rw [copyLoop]
    cases hg : (B.as_slice s)[start + idx]? with
    | none => simp [hg]
    | some x =>
      simp only [hg]
      exact ih (idx + 1) _ e

/-- Helper: `copy` only fails with `ZeroMatchOffset` or
`MemoryLimitExceeded`; in particular never with `ContentSizeInvalid`. -/
theorem copy_err_ne {σ : Type} (B : BufImpl σ) (offset len : Nat) (s : σ) (e : Error)
    (h : copy B offset len s = .err e) : e ≠ .ContentSizeInvalid := by
  simp only [copy] at h
  by_cases h0 : offset = 0
  · rw [if_pos h0] at h
    cases h
    decide
  · rw [if_neg h0] at h
    by_cases h1 : offset = 1
    · rw [if_pos h1] at h
      cases hg : (B.as_slice s).getLast? with
      | none =>
        simp only [hg] at h
        exact absurd h (by simp)
      | some b =>
        simp only [hg] at h
        rcases hr : Buf.resize B s (B.len s + len) b with ⟨s', bflag⟩
        cases bflag
        · simp only [hr] at h
          cases h
          decide
        · simp only [hr] at h
          exact absurd h (by simp)
    · rw [if_neg h1] at h
      by_cases h2 : B.reserve s len = true
      · rw [if_pos h2] at h
        by_cases h3 : offset ≤ B.len s
        · rw [if_pos h3] at h
          exact absurd h (copyLoop_ne_err B _ _ _ _ _)
        · rw [if_neg h3] at h
          exact absurd h (by simp)
      · rw [if_neg h2] at h
        cases h
        decide

/-- Helper: the sequence loop of the raw block decoder never fails with
`ContentSizeInvalid`. -/
theorem decompressBlockLoop_err_ne {σ : Type} (B : BufImpl σ) :
    ∀ (fuel : Nat) (it : ByteIter) (s : σ),
      decompressBlockLoop B fuel it s ≠ .err .ContentSizeInvalid := by
  intro fuel
  induction fuel with
  | zero =>
    intro it s
    rw [decompressBlockLoop]
    simp
  | succ fuel ih =>
    intro it s
    rw [decompressBlockLoop]
    cases h1 : it.read_byte with
    | error e => simp
    | ok p1 =>
      obtain ⟨token, it1⟩ := p1
      cases h2 : it1.read_int (token >>> 4) with
      | error e =>
        have he := read_int_error_eq _ _ _ h2
        subst he
        simp [h2]
      | ok p2 =>
        obtain ⟨len, it2⟩ := p2
        simp only [h2]
        by_cases hres : B.reserve s len = true
        · rw [if_pos hres]
          cases h3 : it2.take len with
          | error e =>
            have he := take_error_eq _ _ _ h3
            subst he
            simp [h3]
          | ok p3 =>
            obtain ⟨slice, it3⟩ := p3
            simp only [h3]
            cases h4 : it3.read_byte with
            | error e => simp
            | ok p4 =>
              obtain ⟨low, it4⟩ := p4
              simp only [h4]
              cases h5 : it4.read_byte with
              | error e =>
                have he := read_byte_error_eq _ _ h5
                subst he
                simp [h5]
              | ok p5 =>
                obtain ⟨high, it5⟩ := p5
                simp only [h5]
                cases h6 : it5.read_int (token &&& 0xF) with
                | error e =>
                  have he := read_int_error_eq _ _ _ h6
                  subst he
                  simp [h6]
                | ok p6 =>
                  obtain ⟨mlen, it6⟩ := p6
                  simp only [h6]
                  cases h7 : copy B (low + 256 * high) (4 + mlen) (B.extend s slice).1 with
                  | err e =>
                    simp only [h7]
                    intro hc
                    exact copy_err_ne B _ _ _ _ h7 (RResult.err.inj hc)
                  | panic m => simp [h7]
                  | ok s2 =>
                    simp only [h7]
                    exact ih it6 s2
        · rw [if_neg hres]
          simp

/-- Helper: `decompress_block` never fails with `ContentSizeInvalid`. -/
theorem decompress_block_err_ne {σ : Type} (B : BufImpl σ) (data : List Nat) (s : σ) :
    decompress_block B data s ≠ .err .ContentSizeInvalid :=
  decompressBlockLoop_err_ne B (data.length + 1) ⟨data, 0⟩ s

/-- Helper: the per-block checksum step only fails with `UnexpectedEof` or
`BlockChecksumInvalid`. -/
theorem blockChecksum_error_ne (flags : Nat) (payload : List Nat) (it : ByteIter) (e : Error)
    (h : blockChecksum flags payload it = .error e) : e ≠ .ContentSizeInvalid := by
  rw [blockChecksum] at h
  by_cases hf : hasFlag flags BlockChecksums = true
  · rw [if_pos hf] at h
    cases hr : it.read 4 with
    | error e1 =>
      simp only [hr] at h
      cases h
      have := read_error_eq _ _ _ hr
      subst this
      decide
    | ok p =>
      obtain ⟨ebs, it'⟩ := p
      simp only [hr] at h
      by_cases hx : xxh32 0 payload ≠ le_of_bytes ebs
      · rw [if_pos hx] at h
        cases h
        decide
      · rw [if_neg hx] at h
        exact absurd h (by simp)
  · rw [if_neg hf] at h
    exact absurd h (by simp)

/-- Helper: the frame decoder's block loop never fails with
`ContentSizeInvalid`. -/
theorem blockLoop_err_ne {σ : Type} (B : BufImpl σ) (flags maxbs : Nat) :
    ∀ (fuel : Nat) (it : ByteIter) (s : σ),
      blockLoop B flags maxbs fuel it s ≠ .err .ContentSizeInvalid := by
  intro fuel
  induction fuel with
  | zero =>
    intro it s
    rw [blockLoop]
    simp
  | succ fuel ih =>
    intro it s
    rw [blockLoop]
    cases h1 : it.read 4 with
    | error e =>
      have := read_error_eq _ _ _ h1
      subst this
      simp [h1]
    | ok p =>
      obtain ⟨hb, it1⟩ := p
      simp only [h1]
      by_cases hz : le_of_bytes hb = 0
      · rw [if_pos hz]
        cases h2 : blockChecksum flags [] it1 with
        | error e =>
          simp only [h2]
          intro hc
          exact blockChecksum_error_ne _ _ _ _ h2 (RResult.err.inj hc)
        | ok it2 => simp [h2]
      · rw [if_neg hz]
        by_cases hb31 : le_of_bytes hb &&& 0x80000000 ≠ 0
        · rw [if_pos hb31]
          cases h2 : it1.take (le_of_bytes hb &&& 0x7FFFFFFF) with
          | error e =>
            have := take_error_eq _ _ _ h2
            subst this
            simp [h2]
          | ok p2 =>
            obtain ⟨source, it2⟩ := p2
            simp only [h2]
            rcases hx : B.extend s source with ⟨s1, bres⟩
            cases bres
            · simp [hx]
            · simp only [hx]
              cases h3 : blockChecksum flags source it2 with
              | error e =>
                simp only [h3]
                intro hc
                exact blockChecksum_error_ne _ _ _ _ h3 (RResult.err.inj hc)
              | ok it3 =>
                simp only [h3]
                exact ih it3 s1
        · rw [if_neg hb31]
          by_cases hsz : maxbs < le_of_bytes hb
          · rw [if_pos hsz]
            cases h2 : it1.take (le_of_bytes hb) with
            | error e =>
              have := take_error_eq _ _ _ h2
              subst this
              simp [h2]
            | ok p2 =>
              obtain ⟨source, it2⟩ := p2
              simp only [h2]
              rcases hx : B.extend s source with ⟨s1, bres⟩
              cases bres
              · simp [hx]
              · simp only [hx]
                cases h3 : blockChecksum flags source it2 with
                | error e =>
                  simp only [h3]
                  intro hc
                  exact blockChecksum_error_ne _ _ _ _ h3 (RResult.err.inj hc)
                | ok it3 =>
                  simp only [h3]
                  exact ih it3 s1
          · rw [if_neg hsz]
            cases h2 : it1.take (le_of_bytes hb) with
            | error e =>
              have := take_error_eq _ _ _ h2
              subst this
              simp [h2]
            | ok p2 =>
              obtain ⟨block, it2⟩ := p2
              simp only [h2]
              cases h3 : decompress_block B block s with
              | err e =>
                simp only [h3]
                intro hc
                have he : e = .ContentSizeInvalid := RResult.err.inj hc
                subst he
                exact decompress_block_err_ne B block s h3
              | panic m => simp [h3]
              | ok s1 =>
                simp only [h3]
                cases h4 : blockChecksum flags block it2 with
                | error e =>
                  simp only [h4]
                  intro hc
                  exact blockChecksum_error_ne _ _ _ _ h4 (RResult.err.inj hc)
                | ok it3 =>
                  simp only [h4]
                  exact ih it3 s1

/-- Helper: the tail of the frame decoder after the frame-descriptor fields
are parsed (dictionary assertion, header checksum, block loop, content
checksum) never fails with `ContentSizeInvalid`. -/
theorem afterHeader_ne {σ : Type} (B : BufImpl σ) (flags maxbs fuel : Nat)
    (hbs : List Nat) (it4 : ByteIter) (s : σ) :
    (if hasFlag flags DictionaryId then
      (.panic "Dictionary IDs are currently not supported" : RResult σ)
     else
      match it4.read_byte with
      | .error e => .err e
      | .ok (hc, it5) =>
        if hc ≠ (xxh32 0 hbs >>> 8) % 256 then .err .HeaderChecksumInvalid
        else
          match blockLoop B flags maxbs fuel it5 s with
          | .err e => .err e
          | .panic m => .panic m
          | .ok (it6, s1) =>
            if hasFlag flags ContentChecksum then
              match it6.read 4 with
              | .error e => .err e
              | .ok (ab, _) =>
                if le_of_bytes ab ≠ xxh32 0 (B.as_slice s1) then
                  .err .ContentChecksumInvalid
                else .ok s1
            else .ok s1) ≠ .err .ContentSizeInvalid := by
  by_cases hd : hasFlag flags DictionaryId = true
  · rw [if_pos hd]
    simp
  · rw [if_neg hd]
    cases h1 : it4.read_byte with
    | error e =>
      have := read_byte_error_eq _ _ h1
      subst this
      simp [h1]
    | ok p =>
      obtain ⟨hc, it5⟩ := p
      simp only [h1]
      by_cases h2 : hc ≠ (xxh32 0 hbs >>> 8) % 256
      · rw [if_pos h2]
        simp
      · rw [if_neg h2]
        cases h3 : blockLoop B flags maxbs fuel it5 s with
        | err e =>
          simp only [h3]
          intro hcx
          have he : e = .ContentSizeInvalid := RResult.err.inj hcx
          subst he
          exact blockLoop_err_ne B flags maxbs fuel it5 s h3
        | panic m => simp [h3]
        | ok p3 =>
          obtain ⟨it6, s1⟩ := p3
          simp only [h3]
          by_cases h4 : hasFlag flags ContentChecksum = true
          · rw [if_pos h4]
            cases h5 : it6.read 4 with
            | error e =>
              have := read_error_eq _ _ _ h5
              subst this
              simp [h5]
            | ok p5 =>
              obtain ⟨ab, it7⟩ := p5
              simp only [h5]
              by_cases h6 : le_of_bytes ab ≠ xxh32 0 (B.as_slice s1)
              · rw [if_pos h6]
                simp
              · rw [if_neg h6]
                simp
          · rw [if_neg h4]
            simp

/-- C1 (amended): the frame decoder reads the declared content size and
feeds it into the header hash, but never compares it with the output
length: `decompress` cannot return `ContentSizeInvalid` on any input (so a
frame whose declared size mismatches the produced output decodes
successfully, as the counterexample shows concretely). -/
theorem decompress_never_content_size_invalid :
    ∀ (σ : Type) (B : BufImpl σ) (input : List Nat) (s : σ),
      decompress B input s ≠ .err .ContentSizeInvalid := by
  intro σ B input s
  rw [decompress]
  cases h1 : (⟨input, 0⟩ : ByteIter).read 4 with
  | error e =>
    have := read_error_eq _ _ _ h1
    subst this
    simp [h1]
  | ok p =>
    obtain ⟨mb, it1⟩ := p
    simp only [h1]
    by_cases hm : le_of_bytes mb ≠ MAGIC
    · rw [if_pos hm]
      simp
    · rw [if_neg hm]
      cases h2 : it1.read_byte with
      | error e =>
        have := read_byte_error_eq _ _ h2
        subst this
        simp [h2]
      | ok p2 =>
        obtain ⟨flagsByte, it2⟩ := p2
        simp only [h2]
        cases h3 : parse_flags flagsByte with
        | error e =>
          simp only [h3]
          have hne : e ≠ .ContentSizeInvalid := by
            rw [parse_flags] at h3
            by_cases hv : flagsByte >>> 6 ≠ VERSION
            · rw [if_pos hv] at h3
              cases h3
              decide
            · rw [if_neg hv] at h3
              by_cases hr : flagsByte &&& 2 ≠ 0
              · rw [if_pos hr] at h3
                cases h3
                decide
              · rw [if_neg hr] at h3
                exact absurd h3 (by simp)
          intro hcx
          exact hne (RResult.err.inj hcx)
        | ok flags =>
          simp only [h3]
          cases h4 : it2.read_byte with
          | error e =>
            have := read_byte_error_eq _ _ h4
            subst this
            simp [h4]
          | ok p4 =>
            obtain ⟨bd, it3⟩ := p4
            simp only [h4]
            by_cases h5 : bd &&& 0b10001111 ≠ 0
            · rw [if_pos h5]
              simp
            · rw [if_neg h5]
              by_cases h6 : 4 ≤ (bd >>> 4) &&& 0b111 ∧ (bd >>> 4) &&& 0b111 ≤ 7
              · rw [if_pos h6]
                by_cases hf : hasFlag flags ContentSize = true
                · rw [if_pos hf]
                  cases h7 : it3.read 8 with
                  | error e =>
                    have := read_error_eq _ _ _ h7
                    subst this
                    simp [h7]
                  | ok p7 =>
                    obtain ⟨csb, it4⟩ := p7
                    simp only [h7]
                    exact afterHeader_ne _ _ _ _ _ _ _
                · rw [if_neg hf]
                  exact afterHeader_ne _ _ _ _ _ _ _
              · rw [if_neg h6]
                simp

end LZ4
